import Mathlib

/-!
Shallow embedding of the competitor discovery and scoring engine
(`server/services/competitorAnalysisService.ts`, with the relevant behaviour of
`googlePlacesService.searchBusinesses` and `aiAnalysisService.generateCompetitorInsights`).

Modelling conventions:
* JS numbers are modelled by `ℚ` (exact arithmetic).  `Math.round x` is
  `⌊x + 1/2⌋` (round half toward positive infinity), `toFixed(1)` rounds the
  first decimal the same way (ties to the larger value, per the ECMA spec).
* `Math.log10` is transcendental, hence not computable over `ℚ`; the whole
  development is parametrised by an abstract `lg : ℚ → ℚ` standing for
  `Math.log10`.  General theorems are proved for every `lg`; concrete
  evaluations instantiate `lg` with the computable stand-in `lgSample`
  (which, like `log10`, maps `1` to `0`, the only property those concrete
  inputs rely on).
* A JS division whose denominator is `0` produces a non-finite value.  At the
  division sites of this service the numerator is then `0` as well (so the
  value is `NaN`), and `NaN` propagates through `-`, `*`, `Math.round`,
  `Math.min` and `Math.max` to the returned value.  This is modelled by
  `jsDiv`, which returns `none` (= no real number) for a zero denominator, and
  by result types `Option _` whose `none` means `NaN`.
  The one division site where JS produces `Infinity` instead — the review-volume
  term of `calculateCompetitiveScore`, whose numerator is strictly positive
  when its denominator is `0` — is modelled exactly there by its JS value:
  `Math.min(15, Infinity) = 15`.
* Effectful collaborators (the places search HTTP call, the OpenAI call, the
  DataForSEO call) are represented by their outcomes, passed in as `Except`
  values; `try/catch` blocks become `match`es on those outcomes.
-/

namespace WBScan

/-- JS `Math.round`: round half toward positive infinity. -/
def jround (q : ℚ) : ℤ := ⌊q + 1/2⌋

/-- JS division, `none` meaning the non-finite result of a zero denominator
(`NaN` at every use site in this service, see the header comment). -/
def jsDiv (a b : ℚ) : Option ℚ := if b = 0 then none else some (a / b)

/-- JS `Number.prototype.toFixed(1)` followed by `Number(...)`: round to one
decimal, ties toward the larger value. -/
def toFixed1 (q : ℚ) : ℚ := (jround (q * 10) : ℚ) / 10

/-- Model of `publicInfo` of a `BusinessSuggestion` (googlePlacesService.ts).  `phone`
and `website` model the truthiness of the optional strings. -/
structure PublicInfo where
  phone : Bool
  website : Bool
  photos : ℚ
deriving DecidableEq, Repr

/-- A business record as returned by the places search
(googlePlacesService.ts, `BusinessSuggestion`).  `location` and the remaining
display fields play no role in discovery or scoring and are kept as plain
strings. -/
structure BusinessSuggestion where
  placeId : String
  name : String
  address : String
  serviceType : String
  rating : ℚ
  reviewCount : ℚ
  publicInfo : PublicInfo
deriving DecidableEq, Repr

/-- Source expression `competitors.reduce((sum, c) => sum + c.rating, 0)`. -/
def sumRatings (l : List BusinessSuggestion) : ℚ :=
  l.foldl (fun s c => s + c.rating) 0

/-- Source expression `competitors.reduce((sum, c) => sum + c.reviewCount, 0)`. -/
def sumReviewCounts (l : List BusinessSuggestion) : ℚ :=
  l.foldl (fun s c => s + c.reviewCount) 0

/-- Mean competitor rating, `4.0` for an empty list (computed inline, with the
same formula, in `calculateCompetitiveScore`, `identifyStrengths`,
`identifyOpportunities` and `analyzeMarket`). -/
def avgRatingOf (competitors : List BusinessSuggestion) : ℚ :=
  if 0 < competitors.length then sumRatings competitors / competitors.length else 4

/-- Mean competitor review count, `50` for an empty list. -/
def avgReviewsOf (competitors : List BusinessSuggestion) : ℚ :=
  if 0 < competitors.length then sumReviewCounts competitors / competitors.length else 50

/-- The competitive-strength key `b.rating * Math.log10((b.reviewCount || 0) + 1)`,
with `Math.log10` abstracted as `lg`. -/
def strength (lg : ℚ → ℚ) (b : BusinessSuggestion) : ℚ :=
  b.rating * lg (b.reviewCount + 1)

/-- Model of `array.sort((a, b) => scoreB - scoreA)`: stable sort, descending by
`strength` (ES2019 `Array.prototype.sort` is stable; `insertionSort` with this
relation is exactly that stable descending sort). -/
def sortByStrength (lg : ℚ → ℚ) (l : List BusinessSuggestion) : List BusinessSuggestion :=
  l.insertionSort (fun a b => strength lg b ≤ strength lg a)

/-- Function `calculateMarketPosition` (competitorAnalysisService.ts): 1-based index of
the target in `[target, ...competitors]` sorted descending by strength.
JS `findIndex` returns `-1` when absent, making the result `0`; this is
modelled by the `none` arm. -/
def calculateMarketPosition (lg : ℚ → ℚ) (target : BusinessSuggestion)
    (competitors : List BusinessSuggestion) : ℕ :=
  let sorted := sortByStrength lg (target :: competitors)
  match sorted.findIdx? (fun b => b.placeId == target.placeId) with
  | some i => i + 1
  | none => 0

/-- Function `calculateCompetitiveScore` (competitorAnalysisService.ts).  Base 50,
rating term, review-volume term, website and phone bonuses, then
`Math.max(0, Math.min(100, Math.round(score)))`.  When the average competitor
review count is `0` and the target is above it, JS computes
`Math.min(15, (positive)/0 * 15) = Math.min(15, Infinity) = 15`; that case is
spelled out explicitly. -/
def calculateCompetitiveScore (target : BusinessSuggestion)
    (competitors : List BusinessSuggestion) : ℤ :=
  let score0 : ℚ := 50
  let avgCompetitorRating := avgRatingOf competitors
  let score1 :=
    if avgCompetitorRating < target.rating then
      score0 + min 20 ((target.rating - avgCompetitorRating) * 10)
    else
      score0 - min 20 ((avgCompetitorRating - target.rating) * 10)
  let avgCompetitorReviews := avgReviewsOf competitors
  let score2 :=
    if avgCompetitorReviews < target.reviewCount then
      (if avgCompetitorReviews = 0 then score1 + 15
       else score1 + min 15 ((target.reviewCount - avgCompetitorReviews) / avgCompetitorReviews * 15))
    else if 0 < avgCompetitorReviews then
      score1 - min 15 ((avgCompetitorReviews - target.reviewCount) / avgCompetitorReviews * 15)
    else score1
  let score3 := if target.publicInfo.website then score2 + 10 else score2
  let score4 := if target.publicInfo.phone then score3 + 5 else score3
  max 0 (min 100 (jround score4))

/-- The base-plus-rating term of `calculateCompetitiveScore`, factored out for
reasoning (see `competitiveScore_eq`). -/
def ratingTermQ (target : BusinessSuggestion) (competitors : List BusinessSuggestion) : ℚ :=
  if avgRatingOf competitors < target.rating then
    50 + min 20 ((target.rating - avgRatingOf competitors) * 10)
  else
    50 - min 20 ((avgRatingOf competitors - target.rating) * 10)

/-- The review-volume term of `calculateCompetitiveScore`, factored out for
reasoning. -/
def reviewDeltaQ (target : BusinessSuggestion) (competitors : List BusinessSuggestion) : ℚ :=
  if avgReviewsOf competitors < target.reviewCount then
    (if avgReviewsOf competitors = 0 then 15
     else min 15 ((target.reviewCount - avgReviewsOf competitors)
       / avgReviewsOf competitors * 15))
  else if 0 < avgReviewsOf competitors then
    -(min 15 ((avgReviewsOf competitors - target.reviewCount)
      / avgReviewsOf competitors * 15))
  else 0

/-- The website and phone bonuses of `calculateCompetitiveScore`, factored out
for reasoning. -/
def contactBonusQ (target : BusinessSuggestion) : ℚ :=
  (if target.publicInfo.website then 10 else 0) + (if target.publicInfo.phone then 5 else 0)

/-- Function `calculatePerformanceScore` (competitorAnalysisService.ts).  Empty set:
`Math.min(64, Math.round(rating / 5 * 100))`.  Otherwise start at 100, subtract
the gap-from-leader, review-deficit, rating-gap and missing-opportunity terms,
then `Math.max(0, Math.min(64, Math.round(score)))`.  The gap-from-leader term
divides by the top competitor's strength with no zero guard; a zero strength
makes the JS result `NaN`, modelled as `none`. -/
def calculatePerformanceScore (lg : ℚ → ℚ) (target : BusinessSuggestion)
    (competitors : List BusinessSuggestion) : Option ℤ :=
  if competitors.length = 0 then
    some (min 64 (jround (target.rating / 5 * 100)))
  else
    let ranked := sortByStrength lg competitors
    match ranked with
    | [] => none
    | top :: _ =>
      let top3 := ranked.take 3
      do
        let gap ← jsDiv (max 0 (strength lg top - strength lg target)) (strength lg top)
        let s1 : ℚ := 100 - gap * 30
        let avgTop3 ← jsDiv (sumReviewCounts top3) (top3.length : ℚ)
        let s2 ←
          if target.reviewCount < avgTop3 then
            (jsDiv (avgTop3 - target.reviewCount) avgTop3).map (fun d => s1 - min 25 (d * 25))
          else some s1
        let s3 ←
          if target.rating < top.rating then
            (jsDiv (top.rating - target.rating) top.rating).map (fun g => s2 - min 25 (g * 25))
          else some s2
        let missing : ℚ :=
          (if target.publicInfo.website then 0 else 8)
          + (if target.publicInfo.phone then 0 else 4)
          + (if target.publicInfo.photos < 10 then 4 else 0)
          + (if target.reviewCount < 50 then 4 else 0)
        some (max 0 (min 64 (jround (s3 - missing))))

/-- The strength messages pushed by `identifyStrengths`, one constructor per
template string.  `higherRating pct` is
"Higher rating than {pct}% of competitors"; `pct = none` is JS `NaN`
(the `0/0` arising from an empty competitor list). -/
inductive StrengthMsg
  | higherRating (pct : Option ℤ)
  | excellentService
  | completeProfile
  | aboveAverageVolume
deriving DecidableEq, Repr

/-- Function `identifyStrengths` (competitorAnalysisService.ts): ordered checks, then
`slice(0, 3)`.  The first check computes
`Math.round(count(rating < target.rating) / competitors.length * 100)` with no
empty guard: an empty list gives `0/0 = NaN`. -/
def identifyStrengths (target : BusinessSuggestion)
    (competitors : List BusinessSuggestion) : List StrengthMsg :=
  let avgRating := avgRatingOf competitors
  let l1 :=
    if avgRating + 1/5 < target.rating then
      [StrengthMsg.higherRating
        (if competitors.length = 0 then none
         else some (jround
           (((competitors.filter (fun c => c.rating < target.rating)).length : ℚ)
             / (competitors.length : ℚ) * 100)))]
    else []
  let l2 := if (9 : ℚ)/2 ≤ target.rating then [StrengthMsg.excellentService] else []
  let l3 :=
    if target.publicInfo.website && target.publicInfo.phone then
      [StrengthMsg.completeProfile]
    else []
  let l4 :=
    if avgReviewsOf competitors < target.reviewCount then
      [StrengthMsg.aboveAverageVolume]
    else []
  (l1 ++ l2 ++ l3 ++ l4).take 3

/-- The opportunity messages pushed by `identifyOpportunities`, one constructor
per template string. -/
inductive OppMsg
  | increaseReviews (needed : ℤ)
  | addWebsite
  | collectReviews
  | improveQuality
  | addPhotos
deriving DecidableEq, Repr

/-- Source expression `competitors.reduce((top, current) => current.reviewCount > top.reviewCount ? current : top)`:
first maximum by review count; `none` on an empty list (the JS code guards with
`competitors.length > 0`). -/
def topByReviews : List BusinessSuggestion → Option BusinessSuggestion
  | [] => none
  | c :: cs =>
    some (cs.foldl (fun top cur => if top.reviewCount < cur.reviewCount then cur else top) c)

/-- Function `identifyOpportunities` (competitorAnalysisService.ts): ordered checks,
then `slice(0, 3)`. -/
def identifyOpportunities (target : BusinessSuggestion)
    (competitors : List BusinessSuggestion) : List OppMsg :=
  let l1 :=
    match topByReviews competitors with
    | none => []
    | some top =>
      if target.reviewCount < top.reviewCount * (7/10) then
        [OppMsg.increaseReviews (jround (top.reviewCount - target.reviewCount))]
      else []
  let l2 := if target.publicInfo.website then [] else [OppMsg.addWebsite]
  let l3 := if target.reviewCount < 50 then [OppMsg.collectReviews] else []
  let l4 := if target.rating < avgRatingOf competitors then [OppMsg.improveQuality] else []
  let l5 := if target.publicInfo.photos < 10 then [OppMsg.addPhotos] else []
  (l1 ++ l2 ++ l3 ++ l4 ++ l5).take 3

/-- The `marketAnalysis` record built by `analyzeMarket`. -/
structure MarketAnalysis where
  totalCompetitors : ℕ
  averageRating : ℚ
  marketShare : ℚ
deriving DecidableEq, Repr

/-- Function `analyzeMarket` (competitorAnalysisService.ts): review-share proxy for
market share (0 when the combined review total is 0) and average competitor
rating, both rounded to one decimal. -/
def analyzeMarket (target : BusinessSuggestion)
    (competitors : List BusinessSuggestion) : MarketAnalysis :=
  let totalReviews := sumReviewCounts (target :: competitors)
  let marketShare := if 0 < totalReviews then target.reviewCount / totalReviews * 100 else 0
  let avgRating := avgRatingOf competitors
  { totalCompetitors := competitors.length
    averageRating := toFixed1 avgRating
    marketShare := toFixed1 marketShare }

/-- One step of the `findCompetitors` de-duplication: push `b` unless its
`placeId` was already seen (the `seenPlaceIds` set is kept in sync with the
accumulator, so membership is checked on the accumulator itself). -/
def dedupInsert (acc : List BusinessSuggestion) (b : BusinessSuggestion) :
    List BusinessSuggestion :=
  if acc.any (fun x => x.placeId == b.placeId) then acc else acc ++ [b]

/-- The inner `for (const business of results)` loop of `findCompetitors`. -/
def dedupBatch (acc : List BusinessSuggestion) (results : List BusinessSuggestion) :
    List BusinessSuggestion :=
  results.foldl dedupInsert acc

/-- The outer `for (const query of searchQueries)` loop of `findCompetitors`
over the per-variant response lists, with the `>= 15` early exit checked after
each merged batch. -/
def accumulateBusinesses (acc : List BusinessSuggestion) :
    List (List BusinessSuggestion) → List BusinessSuggestion
  | [] => acc
  | results :: rest =>
    let acc2 := dedupBatch acc results
    if 15 ≤ acc2.length then acc2 else accumulateBusinesses acc2 rest

/-- Function `findCompetitors` (competitorAnalysisService.ts) as a function of the
per-variant search responses: merge with de-duplication and early exit, drop
records with the target's `placeId`, `slice(0, 10)`.  The query strings built
from `serviceType` and the extracted locality only index the responses and are
irrelevant to the merge. -/
def findCompetitors (target : BusinessSuggestion)
    (responses : List (List BusinessSuggestion)) : List BusinessSuggestion :=
  ((accumulateBusinesses [] responses).filter (fun b => b.placeId != target.placeId)).take 10

variable {ε ι σ : Type}

/-- Variant of `accumulateBusinesses` where each search can reject: the loop body
`await this.googlePlaces.searchBusinesses(query)` has no try/catch, so a
rejecting variant aborts the loop and the whole function. -/
def accumulateBusinessesE (acc : List BusinessSuggestion) :
    List (Except ε (List BusinessSuggestion)) → Except ε (List BusinessSuggestion)
  | [] => Except.ok acc
  | Except.error e :: _ => Except.error e
  | Except.ok results :: rest =>
    let acc2 := dedupBatch acc results
    if 15 ≤ acc2.length then Except.ok acc2 else accumulateBusinessesE acc2 rest

/-- Variant of `findCompetitors` over fallible per-variant search outcomes. -/
def findCompetitorsE (target : BusinessSuggestion)
    (responses : List (Except ε (List BusinessSuggestion))) :
    Except ε (List BusinessSuggestion) :=
  (accumulateBusinessesE [] responses).map
    (fun all => (all.filter (fun b => b.placeId != target.placeId)).take 10)

/-- Model of `GooglePlacesService.searchBusinesses` (googlePlacesService.ts), with the
HTTP call and result processing represented by their outcome: with a mock key
it returns the (filtered) mock list outright; otherwise the whole body sits in
a `try/catch` whose catch returns the mock list, and a non-OK API status also
falls back to the mock list.  Every path returns `Except.ok`. -/
def searchBusinesses (isMockKey : Bool) (mock : List BusinessSuggestion)
    (outcome : Except ε (Bool × List BusinessSuggestion)) :
    Except ε (List BusinessSuggestion) :=
  if isMockKey then Except.ok mock
  else
    match outcome with
    | Except.error _ => Except.ok mock
    | Except.ok (statusOk, processed) =>
      if statusOk then Except.ok processed else Except.ok mock

/-- Model of `AIAnalysisService.generateCompetitorInsights` (aiAnalysisService.ts): mock
insights when disabled; otherwise the OpenAI call, JSON parse and validation
(represented by `apiOutcome`) sit in a `try/catch` whose catch returns the mock
insights.  Every path returns `Except.ok`. -/
def generateCompetitorInsights (enabled : Bool) (mockInsights : ι)
    (apiOutcome : Except ε ι) : Except ε ι :=
  if !enabled then Except.ok mockInsights
  else
    match apiOutcome with
    | Except.ok i => Except.ok i
    | Except.error _ => Except.ok mockInsights

/-- The `CompetitorAnalysisResult` record (competitorAnalysisService.ts),
with the AI-insights and DataForSEO payload types abstract. -/
structure CompetitorAnalysisResult (ι σ : Type) where
  marketPosition : ℕ
  competitiveScore : ℤ
  performanceScore : Option ℤ
  strengths : List StrengthMsg
  opportunities : List OppMsg
  competitors : List BusinessSuggestion
  marketAnalysis : MarketAnalysis
  aiInsights : ι
  enhancedSeoData : Option σ
deriving DecidableEq, Repr

/-- The single failure the orchestrator can report:
`throw new Error('Failed to analyze competition')` in the outer catch. -/
inductive AnalysisError
  | failedToAnalyze
deriving DecidableEq, Repr

/-- Function `analyzeCompetition` (competitorAnalysisService.ts): discovery, the pure
scoring core, then the AI-insights call (no orchestrator-level catch) and the
credentials-guarded DataForSEO call (its own try/catch, failure leaving the
field `null`).  The whole body sits in a `try/catch` that converts any
rejection into the hard `failedToAnalyze` error. -/
def analyzeCompetition (lg : ℚ → ℚ) (target : BusinessSuggestion)
    (responses : List (Except ε (List BusinessSuggestion)))
    (aiOutcome : Except ε ι) (seoConfigured : Bool) (seoOutcome : Except ε σ) :
    Except AnalysisError (CompetitorAnalysisResult ι σ) :=
  match (do
    let competitors ← findCompetitorsE target responses
    let aiInsights ← aiOutcome
    let enhancedData : Option σ :=
      if seoConfigured then
        match seoOutcome with
        | Except.ok d => some d
        | Except.error _ => none
      else none
    pure { marketPosition := calculateMarketPosition lg target competitors
           competitiveScore := calculateCompetitiveScore target competitors
           performanceScore := calculatePerformanceScore lg target competitors
           strengths := identifyStrengths target competitors
           opportunities := identifyOpportunities target competitors
           competitors := competitors
           marketAnalysis := analyzeMarket target competitors
           aiInsights := aiInsights
           enhancedSeoData := enhancedData } : Except ε (CompetitorAnalysisResult ι σ)) with
  | Except.ok r => Except.ok r
  | Except.error _ => Except.error AnalysisError.failedToAnalyze

/-- Computable stand-in for `Math.log10`, used only to instantiate the abstract
`lg` parameter in concrete evaluations.  Like `log10` it maps `1` to `0` (so a
zero review count yields zero strength) and is increasing on the inputs
`reviewCount + 1 ≥ 1` that occur. -/
def lgSample : ℚ → ℚ := fun q => q - 1

/-- Sample target: well-rated, well-reviewed, complete profile. -/
def targetA : BusinessSuggestion :=
  { placeId := "target-a", name := "Target A", address := "1 Main St, Phoenix, AZ 85001",
    serviceType := "HVAC", rating := 5, reviewCount := 100,
    publicInfo := { phone := true, website := true, photos := 15 } }

/-- Sample competitor with rating 0: its strength `0 * lg 11` is `0` for every
`lg`, making it a zero-strength market leader when it is the only competitor. -/
def competitorZero : BusinessSuggestion :=
  { placeId := "comp-zero", name := "Zero Stars LLC", address := "2 Oak Ave, Phoenix, AZ 85002",
    serviceType := "HVAC", rating := 0, reviewCount := 10,
    publicInfo := { phone := true, website := false, photos := 5 } }

/-- Sample competitor with nonzero strength under `lgSample`. -/
def competitorB : BusinessSuggestion :=
  { placeId := "comp-b", name := "Competitor B", address := "3 Pine Rd, Phoenix, AZ 85003",
    serviceType := "HVAC", rating := 4, reviewCount := 10,
    publicInfo := { phone := true, website := true, photos := 12 } }

/-- Sample target with rating 5 and an otherwise empty profile. -/
def targetB : BusinessSuggestion :=
  { placeId := "target-b", name := "Target B", address := "4 Elm St, Phoenix, AZ 85004",
    serviceType := "Plumbing", rating := 5, reviewCount := 0,
    publicInfo := { phone := false, website := false, photos := 0 } }

/-- Sample target with no reviews. -/
def targetC : BusinessSuggestion :=
  { placeId := "target-c", name := "Target C", address := "5 Cedar Ave, Phoenix, AZ 85005",
    serviceType := "Roofing", rating := 4, reviewCount := 0,
    publicInfo := { phone := false, website := false, photos := 0 } }

/-- Sample competitor with ten reviews. -/
def competitorC : BusinessSuggestion :=
  { placeId := "comp-c", name := "Competitor C", address := "6 Birch Ln, Phoenix, AZ 85006",
    serviceType := "Roofing", rating := 4, reviewCount := 10,
    publicInfo := { phone := false, website := false, photos := 0 } }

/-! ## Helper lemmas -/

theorem foldl_add_eq (f : BusinessSuggestion → ℚ) (l : List BusinessSuggestion) (a : ℚ) :
    l.foldl (fun s c => s + f c) a = a + (l.map f).sum := by
  induction l generalizing a with
  | nil => simp
  | cons x xs ih => simp [ih, add_assoc]

theorem sumRatings_eq (l : List BusinessSuggestion) :
    sumRatings l = (l.map (fun b => b.rating)).sum := by
  simpa using foldl_add_eq (fun b => b.rating) l 0

theorem sumReviewCounts_eq (l : List BusinessSuggestion) :
    sumReviewCounts l = (l.map (fun b => b.reviewCount)).sum := by
  simpa using foldl_add_eq (fun b => b.reviewCount) l 0

theorem jround_nonneg {q : ℚ} (h : 0 ≤ q) : 0 ≤ jround q := by
  rw [jround]
  exact Int.floor_nonneg.mpr (by linarith)

theorem jround_mono {a b : ℚ} (h : a ≤ b) : jround a ≤ jround b :=
  Int.floor_le_floor (by linarith)

/-! ## C4: the empty-competitor guard on the percentile strength is missing -/

/-- With no competitors the default average rating is 4.0, so a target rating
above 4.2 fires the percentile check; the percentile is then `0/0 = NaN` and
the code emits "Higher rating than NaN% of competitors" instead of skipping the
check. -/
theorem identifyStrengths_empty_emits_nan_percentile :
    identifyStrengths targetB [] =
      [StrengthMsg.higherRating none, StrengthMsg.excellentService] := by
  norm_num [identifyStrengths, avgRatingOf, avgReviewsOf, sumRatings, sumReviewCounts, targetB]

/-! ## C6: the competitor list is capped at 10 and excludes the target -/

/-- For every sequence of query-variant responses, `findCompetitors` returns at
most 10 records, none carrying the target's `placeId`, and the result is the
first-10 initial segment of the filtered accumulator in accumulation order. -/
theorem findCompetitors_capped_and_excludes_target (target : BusinessSuggestion)
    (responses : List (List BusinessSuggestion)) :
    (findCompetitors target responses).length ≤ 10 ∧
    (∀ b ∈ findCompetitors target responses, b.placeId ≠ target.placeId) ∧
    ∃ rest, (accumulateBusinesses [] responses).filter (fun b => b.placeId != target.placeId)
      = findCompetitors target responses ++ rest := by
  refine ⟨?_, ?_, ?_⟩
  · rw [findCompetitors, List.length_take]
    exact min_le_left _ _
  · intro b hb
    rw [findCompetitors] at hb
    have hb' := List.mem_of_mem_take hb
    exact bne_iff_ne.mp (List.mem_filter.mp hb').2
  · exact ⟨_, (List.take_append_drop 10 _).symm⟩

/-! ## C10: the competitive score is invariant under permutation of the
competitor list -/

/-- Function `calculateCompetitiveScore` depends on the competitors only through their
count and the sums of their ratings and review counts, so permuting the list
leaves the score unchanged. -/
theorem competitiveScore_perm_invariant (t : BusinessSuggestion)
    {l1 l2 : List BusinessSuggestion} (h : l1.Perm l2) :
    calculateCompetitiveScore t l1 = calculateCompetitiveScore t l2 := by
  have hr : sumRatings l1 = sumRatings l2 := by
    rw [sumRatings_eq, sumRatings_eq]
    exact (h.map _).sum_eq
  have hv : sumReviewCounts l1 = sumReviewCounts l2 := by
    rw [sumReviewCounts_eq, sumReviewCounts_eq]
    exact (h.map _).sum_eq
  have hl : l1.length = l2.length := h.length_eq
  simp only [calculateCompetitiveScore, avgRatingOf, avgReviewsOf, hr, hv, hl]

/-- Witness: swapping two concrete competitors leaves the score unchanged. -/
theorem competitiveScore_perm_invariant_witness :
    [competitorB, competitorZero].Perm [competitorZero, competitorB] ∧
    calculateCompetitiveScore targetA [competitorB, competitorZero]
      = calculateCompetitiveScore targetA [competitorZero, competitorB] :=
  ⟨List.Perm.swap competitorZero competitorB [],
   competitiveScore_perm_invariant targetA (List.Perm.swap competitorZero competitorB [])⟩

/-! ## C2: a raising query variant is not swallowed by findCompetitors -/

/-- Counterexample to C2 as stated: a single rejecting variant makes
`findCompetitors` reject and `analyzeCompetition` report the hard
`failedToAnalyze` error instead of degrading to fewer competitors. -/
theorem variant_failure_aborts_analysis :
    (findCompetitorsE targetA [Except.error ()] : Except Unit (List BusinessSuggestion))
      = Except.error () ∧
    (analyzeCompetition lgSample targetA [Except.error ()]
        (Except.ok ()) false (Except.error ())
      : Except AnalysisError (CompetitorAnalysisResult Unit Unit))
      = Except.error AnalysisError.failedToAnalyze := by
  exact ⟨rfl, rfl⟩

/-- Amended C2: `findCompetitors` has no per-variant handler, so a rejecting
variant propagates out of discovery and the orchestrator converts it into the
hard `failedToAnalyze` error; however `searchBusinesses` itself catches
provider failures and falls back to the mock list, so every search path
returns a result list rather than raising. -/
theorem discovery_failure_propagation_and_search_total :
    (∀ (target : BusinessSuggestion) (e : ε)
        (rest : List (Except ε (List BusinessSuggestion))),
      findCompetitorsE target (Except.error e :: rest) = Except.error e) ∧
    (∀ (lg : ℚ → ℚ) (target : BusinessSuggestion)
        (responses : List (Except ε (List BusinessSuggestion))) (e : ε)
        (aiOutcome : Except ε ι) (seoConfigured : Bool) (seoOutcome : Except ε σ),
      findCompetitorsE target responses = Except.error e →
      analyzeCompetition lg target responses aiOutcome seoConfigured seoOutcome
        = Except.error AnalysisError.failedToAnalyze) ∧
    (∀ (isMockKey : Bool) (mock : List BusinessSuggestion)
        (outcome : Except ε (Bool × List BusinessSuggestion)),
      ∃ l, searchBusinesses isMockKey mock outcome = Except.ok l) := by
  refine ⟨?_, ?_, ?_⟩
  · intro target e rest
    rfl
  · intro lg target responses e aiOutcome seoConfigured seoOutcome h
    simp only [analyzeCompetition, bind, Except.bind, h]
  · intro isMockKey mock outcome
    cases isMockKey with
    | true => exact ⟨mock, rfl⟩
    | false =>
      cases outcome with
      | error e => exact ⟨mock, rfl⟩
      | ok p =>
        cases p with
        | mk statusOk processed =>
          cases statusOk with
          | true => exact ⟨processed, rfl⟩
          | false => exact ⟨mock, rfl⟩

/-- Witness for the amended C2 at a concrete input. -/
theorem discovery_failure_propagation_witness :
    (findCompetitorsE targetC [Except.error ()] : Except Unit (List BusinessSuggestion))
      = Except.error () ∧
    (analyzeCompetition lgSample targetC [Except.error ()]
        (Except.ok ()) false (Except.error ())
      : Except AnalysisError (CompetitorAnalysisResult Unit Unit))
      = Except.error AnalysisError.failedToAnalyze ∧
    ∃ l, (searchBusinesses false [] (Except.error ())
      : Except Unit (List BusinessSuggestion)) = Except.ok l :=
  ⟨(@discovery_failure_propagation_and_search_total Unit Unit Unit).1 targetC () [],
   (@discovery_failure_propagation_and_search_total Unit Unit Unit).2.1 lgSample targetC
     [Except.error ()] () (Except.ok ()) false (Except.error ())
     ((@discovery_failure_propagation_and_search_total Unit Unit Unit).1 targetC () []),
   (@discovery_failure_propagation_and_search_total Unit Unit Unit).2.2 false []
     (Except.error ())⟩

/-! ## C9: enrichment failure handling is asymmetric between SEO and AI -/

/-- Counterexample to C9 as stated: a rejection of the AI-insights call is not
caught at the orchestrator boundary — the whole analysis fails with the hard
error instead of returning a result with the field omitted. -/
theorem ai_failure_aborts_analysis :
    (analyzeCompetition lgSample targetA [Except.ok []]
        (Except.error ()) false (Except.ok ())
      : Except AnalysisError (CompetitorAnalysisResult Unit Unit))
      = Except.error AnalysisError.failedToAnalyze := by
  rfl

/-- Amended C9: the DataForSEO enrichment failure is caught and swallowed at
the orchestrator boundary (`enhancedSeoData` is `none`, the core fields are the
pure scoring results, and a result is returned), while the AI-insights call has
no orchestrator-level catch — its failures are swallowed inside
`generateCompetitorInsights`, which falls back to mock insights on every
provider failure and never rejects. -/
theorem enrichment_failure_isolation (lg : ℚ → ℚ) (target : BusinessSuggestion)
    (responses : List (Except ε (List BusinessSuggestion)))
    (comps : List BusinessSuggestion) (insights : ι)
    (seoConfigured : Bool) (seoOutcome : Except ε σ)
    (hc : findCompetitorsE target responses = Except.ok comps) :
    (analyzeCompetition lg target responses (Except.ok insights) seoConfigured seoOutcome
      = Except.ok
        { marketPosition := calculateMarketPosition lg target comps
          competitiveScore := calculateCompetitiveScore target comps
          performanceScore := calculatePerformanceScore lg target comps
          strengths := identifyStrengths target comps
          opportunities := identifyOpportunities target comps
          competitors := comps
          marketAnalysis := analyzeMarket target comps
          aiInsights := insights
          enhancedSeoData :=
            if seoConfigured then
              match seoOutcome with
              | Except.ok d => some d
              | Except.error _ => none
            else none }) ∧
    (∀ (enabled : Bool) (mockInsights : ι) (apiOutcome : Except ε ι),
      ∃ i, generateCompetitorInsights enabled mockInsights apiOutcome = Except.ok i) := by
  constructor
  · simp only [analyzeCompetition, bind, Except.bind, hc, pure, Except.pure]
  · intro enabled mockInsights apiOutcome
    cases enabled with
    | false => exact ⟨mockInsights, rfl⟩
    | true =>
      cases apiOutcome with
      | ok i => exact ⟨i, rfl⟩
      | error e => exact ⟨mockInsights, rfl⟩

/-- Witness for the amended C9: a failing configured SEO enrichment leaves the
core fields intact, sets `enhancedSeoData` to `none`, and still returns a
result. -/
theorem enrichment_failure_isolation_witness :
    (analyzeCompetition lgSample targetC [Except.ok []]
        (Except.ok ()) true (Except.error ())
      : Except AnalysisError (CompetitorAnalysisResult Unit Unit))
      = Except.ok
        { marketPosition := calculateMarketPosition lgSample targetC []
          competitiveScore := calculateCompetitiveScore targetC []
          performanceScore := calculatePerformanceScore lgSample targetC []
          strengths := identifyStrengths targetC []
          opportunities := identifyOpportunities targetC []
          competitors := []
          marketAnalysis := analyzeMarket targetC []
          aiInsights := ()
          enhancedSeoData := none } :=
  (enrichment_failure_isolation lgSample targetC [Except.ok []] [] () true
    (Except.error ()) rfl).1

/-! ## C3: marketShare range and its zero set -/

/-- Counterexample to C3 as stated: a target with zero reviews against a
competitor with ten reviews gets marketShare 0 although not all reviewCounts
are 0. -/
theorem marketShare_zero_with_nonzero_competitor_reviews :
    (analyzeMarket targetC [competitorC]).marketShare = 0 ∧
    competitorC.reviewCount ≠ 0 := by
  norm_num [analyzeMarket, sumReviewCounts, toFixed1, jround, targetC, competitorC]

/-- Amended C3: for nonnegative review counts the marketShare lies in
[0, 100], and it is 0 exactly when the combined review total is 0 or the
target's share is below 0.05% (in particular when the target has no reviews);
rounding to one decimal sends any positive share below that threshold to 0 as
well. -/
theorem marketShare_range_and_zero_iff (t : BusinessSuggestion)
    (comps : List BusinessSuggestion)
    (h : ∀ b ∈ t :: comps, 0 ≤ b.reviewCount) :
    0 ≤ (analyzeMarket t comps).marketShare ∧
    (analyzeMarket t comps).marketShare ≤ 100 ∧
    ((analyzeMarket t comps).marketShare = 0 ↔
      sumReviewCounts (t :: comps) = 0 ∨
      2000 * t.reviewCount < sumReviewCounts (t :: comps)) := by
  have hrest : 0 ≤ (comps.map (fun b => b.reviewCount)).sum := by
    refine List.sum_nonneg ?_
    intro x hx
    obtain ⟨b, hb, rfl⟩ := List.mem_map.mp hx
    exact h b (List.mem_cons_of_mem t hb)
  have hT : 0 ≤ sumReviewCounts (t :: comps) := by
    rw [sumReviewCounts_eq]
    simp only [List.map_cons, List.sum_cons]
    have := h t (List.mem_cons_self t comps)
    linarith
  have htt : t.reviewCount ≤ sumReviewCounts (t :: comps) := by
    rw [sumReviewCounts_eq]
    simp only [List.map_cons, List.sum_cons]
    linarith
  have hms : (analyzeMarket t comps).marketShare
      = toFixed1 (if 0 < sumReviewCounts (t :: comps) then
          t.reviewCount / sumReviewCounts (t :: comps) * 100 else 0) := rfl
  by_cases h0 : 0 < sumReviewCounts (t :: comps)
  · rw [hms, if_pos h0]
    have ht0 : 0 ≤ t.reviewCount := h t (List.mem_cons_self t comps)
    have hraw0 : 0 ≤ t.reviewCount / sumReviewCounts (t :: comps) * 100 := by positivity
    have hraw100 : t.reviewCount / sumReviewCounts (t :: comps) * 100 ≤ 100 := by
      have h1 : t.reviewCount / sumReviewCounts (t :: comps) ≤ 1 := (div_le_one h0).mpr htt
      linarith
    refine ⟨?_, ?_, ?_⟩
    · rw [toFixed1]
      have := jround_nonneg (q := t.reviewCount / sumReviewCounts (t :: comps) * 100 * 10)
        (by linarith)
      have hc : (0:ℚ) ≤ (jround (t.reviewCount / sumReviewCounts (t :: comps) * 100 * 10) : ℚ) := by
        exact_mod_cast this
      linarith
    · rw [toFixed1]
      have hj : jround (t.reviewCount / sumReviewCounts (t :: comps) * 100 * 10) ≤ 1000 := by
        rw [jround]
        have : ⌊t.reviewCount / sumReviewCounts (t :: comps) * 100 * 10 + 1/2⌋ < 1001 :=
          Int.floor_lt.mpr (by push_cast; linarith)
        omega
      have hc : ((jround (t.reviewCount / sumReviewCounts (t :: comps) * 100 * 10) : ℤ) : ℚ)
          ≤ 1000 := by exact_mod_cast hj
      linarith
    · rw [toFixed1, jround]
      constructor
      · intro he
        right
        have hz : ⌊t.reviewCount / sumReviewCounts (t :: comps) * 100 * 10 + 1/2⌋ = 0 := by
          have h10 : ((⌊t.reviewCount / sumReviewCounts (t :: comps) * 100 * 10 + 1/2⌋ : ℤ) : ℚ)
              = 0 := by
            rcases div_eq_zero_iff.mp he with h' | h'
            · exact h'
            · norm_num at h'
          exact_mod_cast h10
        have hico := Set.mem_Ico.mp (Int.floor_eq_zero_iff.mp hz)
        have hlt : t.reviewCount / sumReviewCounts (t :: comps) < 1/2000 := by
          nlinarith [hico.2]
        have := (div_lt_iff₀ h0).mp hlt
        linarith
      · intro hor
        rcases hor with hT0 | hlt
        · exact absurd hT0 (ne_of_gt h0)
        · have hraw20 : t.reviewCount / sumReviewCounts (t :: comps) < 1/2000 :=
            (div_lt_iff₀ h0).mpr (by linarith)
          have hz : ⌊t.reviewCount / sumReviewCounts (t :: comps) * 100 * 10 + 1/2⌋ = 0 := by
            refine Int.floor_eq_zero_iff.mpr (Set.mem_Ico.mpr ⟨by linarith, by nlinarith⟩)
          rw [hz]
          norm_num
  · have hT0 : sumReviewCounts (t :: comps) = 0 := le_antisymm (le_of_not_lt h0) hT
    rw [hms, if_neg h0]
    norm_num [toFixed1, jround]
    exact Or.inl hT0

/-- Witness for the amended C3 at a concrete input. -/
theorem marketShare_range_witness :
    0 ≤ (analyzeMarket targetA [competitorB]).marketShare ∧
    (analyzeMarket targetA [competitorB]).marketShare ≤ 100 ∧
    ((analyzeMarket targetA [competitorB]).marketShare = 0 ↔
      sumReviewCounts (targetA :: [competitorB]) = 0 ∨
      2000 * targetA.reviewCount < sumReviewCounts (targetA :: [competitorB])) :=
  marketShare_range_and_zero_iff targetA [competitorB] (by
    intro b hb
    rcases List.mem_cons.mp hb with rfl | hb'
    · norm_num [targetA]
    · rcases List.mem_singleton.mp hb' with rfl
      norm_num [competitorB])

/-! ## C8: the competitive score is monotone in the target's rating -/

theorem competitiveScore_eq (target : BusinessSuggestion)
    (competitors : List BusinessSuggestion) :
    calculateCompetitiveScore target competitors
      = max 0 (min 100 (jround
          (ratingTermQ target competitors + reviewDeltaQ target competitors
            + contactBonusQ target))) := by
  simp only [calculateCompetitiveScore, ratingTermQ, reviewDeltaQ, contactBonusQ]
  split_ifs <;> congr 1 <;> ring_nf

theorem ratingTermQ_mono (t : BusinessSuggestion) (comps : List BusinessSuggestion)
    {r1 r2 : ℚ} (h : r1 ≤ r2) :
    ratingTermQ { t with rating := r1 } comps ≤ ratingTermQ { t with rating := r2 } comps := by
  simp only [ratingTermQ]
  by_cases h1 : avgRatingOf comps < r1 <;> by_cases h2 : avgRatingOf comps < r2
  · rw [if_pos h1, if_pos h2]
    have : (r1 - avgRatingOf comps) * 10 ≤ (r2 - avgRatingOf comps) * 10 := by linarith
    have := min_le_min (le_refl (20:ℚ)) this
    linarith
  · exact absurd (lt_of_lt_of_le h1 h) h2
  · rw [if_neg h1, if_pos h2]
    have hm1 : 0 ≤ min (20:ℚ) ((avgRatingOf comps - r1) * 10) :=
      le_min (by norm_num) (mul_nonneg (by linarith [not_lt.mp h1]) (by norm_num))
    have hm2 : 0 ≤ min (20:ℚ) ((r2 - avgRatingOf comps) * 10) :=
      le_min (by norm_num) (mul_nonneg (by linarith) (by norm_num))
    linarith
  · rw [if_neg h1, if_neg h2]
    have : (avgRatingOf comps - r2) * 10 ≤ (avgRatingOf comps - r1) * 10 := by linarith
    have := min_le_min (le_refl (20:ℚ)) this
    linarith

/-- Holding the competitors fixed, `calculateCompetitiveScore` is monotone
non-decreasing in the target's rating, and its values are clamped to
[0, 100]. -/
theorem competitiveScore_monotone_in_rating (t : BusinessSuggestion)
    (competitors : List BusinessSuggestion) (r1 r2 : ℚ) (h : r1 ≤ r2) :
    calculateCompetitiveScore { t with rating := r1 } competitors
      ≤ calculateCompetitiveScore { t with rating := r2 } competitors ∧
    0 ≤ calculateCompetitiveScore t competitors ∧
    calculateCompetitiveScore t competitors ≤ 100 := by
  refine ⟨?_, ?_, ?_⟩
  · rw [competitiveScore_eq, competitiveScore_eq]
    refine max_le_max le_rfl (min_le_min le_rfl (jround_mono ?_))
    have hm := ratingTermQ_mono t competitors h
    have hd : reviewDeltaQ { t with rating := r1 } competitors
        = reviewDeltaQ { t with rating := r2 } competitors := rfl
    have hc : contactBonusQ { t with rating := r1 }
        = contactBonusQ { t with rating := r2 } := rfl
    rw [hd, hc]
    linarith
  · rw [competitiveScore_eq]
    exact le_max_left 0 _
  · rw [competitiveScore_eq]
    exact max_le (by norm_num) (min_le_left _ _)

/-- Witness for C8 at a concrete input. -/
theorem competitiveScore_monotone_witness :
    (3:ℚ) ≤ 4 ∧
    calculateCompetitiveScore { targetA with rating := 3 } [competitorB]
      ≤ calculateCompetitiveScore { targetA with rating := 4 } [competitorB] ∧
    0 ≤ calculateCompetitiveScore targetA [competitorB] ∧
    calculateCompetitiveScore targetA [competitorB] ≤ 100 :=
  ⟨by norm_num,
   (competitiveScore_monotone_in_rating targetA [competitorB] 3 4 (by norm_num)).1,
   (competitiveScore_monotone_in_rating targetA [competitorB] 3 4 (by norm_num)).2.1,
   (competitiveScore_monotone_in_rating targetA [competitorB] 3 4 (by norm_num)).2.2⟩

/-! ## C7: the market position is the 1-based rank in the stable
strength-descending order and lies in [1, n+1] -/

/-- For every abstraction `lg` of `Math.log10`, the market position is `i + 1`
where `i` is the index of the first record carrying the target's `placeId` in
`[target] ++ competitors` stably sorted descending by strength, and it lies in
`[1, competitors.length + 1]`. -/
theorem calculateMarketPosition_bounds (lg : ℚ → ℚ) (target : BusinessSuggestion)
    (competitors : List BusinessSuggestion) :
    1 ≤ calculateMarketPosition lg target competitors ∧
    calculateMarketPosition lg target competitors ≤ competitors.length + 1 ∧
    List.Sorted (fun a b => strength lg b ≤ strength lg a)
      (sortByStrength lg (target :: competitors)) ∧
    (sortByStrength lg (target :: competitors)).Perm (target :: competitors) ∧
    ∃ i, (sortByStrength lg (target :: competitors)).findIdx?
        (fun b => b.placeId == target.placeId) = some i ∧
      calculateMarketPosition lg target competitors = i + 1 := by
  have hperm : (sortByStrength lg (target :: competitors)).Perm (target :: competitors) :=
    List.perm_insertionSort _ _
  have hmem : target ∈ sortByStrength lg (target :: competitors) :=
    hperm.mem_iff.mpr (List.mem_cons_self target competitors)
  have hne : (sortByStrength lg (target :: competitors)).findIdx?
      (fun b => b.placeId == target.placeId) ≠ none := by
    intro hnone
    have := List.findIdx?_eq_none_iff.mp hnone target hmem
    simp at this
  obtain ⟨i, hi⟩ := Option.ne_none_iff_exists'.mp hne
  have hlen : i < (sortByStrength lg (target :: competitors)).length :=
    (List.findIdx?_eq_some_iff_findIdx_eq.mp hi).1
  have hlen' : (sortByStrength lg (target :: competitors)).length = competitors.length + 1 := by
    rw [sortByStrength, List.length_insertionSort, List.length_cons]
  have hpos : calculateMarketPosition lg target competitors = i + 1 := by
    simp only [calculateMarketPosition, hi]
  refine ⟨?_, ?_, ?_, hperm, ⟨i, hi, hpos⟩⟩
  · rw [hpos]
    omega
  · rw [hpos]
    rw [hlen'] at hlen
    omega
  · haveI : IsTotal BusinessSuggestion (fun a b => strength lg b ≤ strength lg a) :=
      ⟨fun a b => le_total (strength lg b) (strength lg a)⟩
    haveI : IsTrans BusinessSuggestion (fun a b => strength lg b ≤ strength lg a) :=
      ⟨fun a b c hab hbc => le_trans hbc hab⟩
    exact List.sorted_insertionSort _ _

/-! ## C5: merging is keyed by placeId with first-seen wins -/

theorem dedupInsert_of_seen {acc : List BusinessSuggestion} {b : BusinessSuggestion}
    (h : ∃ x ∈ acc, x.placeId = b.placeId) : dedupInsert acc b = acc := by
  have hc : (acc.any fun x => x.placeId == b.placeId) = true := by
    rw [List.any_eq_true]
    obtain ⟨x, hx, he⟩ := h
    exact ⟨x, hx, beq_iff_eq.mpr he⟩
  rw [dedupInsert, if_pos hc]

theorem dedupInsert_of_new {acc : List BusinessSuggestion} {b : BusinessSuggestion}
    (h : ¬ ∃ x ∈ acc, x.placeId = b.placeId) : dedupInsert acc b = acc ++ [b] := by
  have hc : ¬ ((acc.any fun x => x.placeId == b.placeId) = true) := by
    rw [List.any_eq_true]
    rintro ⟨x, hx, he⟩
    exact h ⟨x, hx, beq_iff_eq.mp he⟩
  rw [dedupInsert, if_neg hc]

theorem mem_dedupInsert_of_mem {acc : List BusinessSuggestion} {b a : BusinessSuggestion}
    (h : a ∈ acc) : a ∈ dedupInsert acc b := by
  rw [dedupInsert]
  split
  · exact h
  · exact List.mem_append_left _ h

theorem exists_id_mem_dedupInsert (acc : List BusinessSuggestion) (x : BusinessSuggestion) :
    ∃ y ∈ dedupInsert acc x, y.placeId = x.placeId := by
  by_cases h : ∃ y ∈ acc, y.placeId = x.placeId
  · obtain ⟨y, hy, he⟩ := h
    exact ⟨y, mem_dedupInsert_of_mem hy, he⟩
  · rw [dedupInsert_of_new h]
    exact ⟨x, List.mem_append_right _ (List.mem_singleton.mpr rfl), rfl⟩

theorem mem_dedupBatch_of_mem :
    ∀ {l : List BusinessSuggestion} {acc : List BusinessSuggestion} {a : BusinessSuggestion},
      a ∈ acc → a ∈ dedupBatch acc l := by
  intro l
  induction l with
  | nil => intro acc a h; exact h
  | cons x xs ih =>
    intro acc a h
    show a ∈ dedupBatch (dedupInsert acc x) xs
    exact ih (mem_dedupInsert_of_mem h)

theorem mem_dedupBatch :
    ∀ {l : List BusinessSuggestion} {acc : List BusinessSuggestion} {b : BusinessSuggestion},
      b ∈ dedupBatch acc l →
      b ∈ acc ∨ ((¬ ∃ x ∈ acc, x.placeId = b.placeId) ∧
        l.find? (fun x => x.placeId == b.placeId) = some b) := by
  intro l
  induction l with
  | nil => intro acc b h; exact Or.inl h
  | cons x xs ih =>
    intro acc b h
    have h' : b ∈ dedupBatch (dedupInsert acc x) xs := h
    rcases ih h' with hmem | ⟨hnot, hfind⟩
    · by_cases hseen : ∃ y ∈ acc, y.placeId = x.placeId
      · rw [dedupInsert_of_seen hseen] at hmem
        exact Or.inl hmem
      · rw [dedupInsert_of_new hseen] at hmem
        rcases List.mem_append.mp hmem with h1 | h2
        · exact Or.inl h1
        · have hb : b = x := List.mem_singleton.mp h2
          subst hb
          refine Or.inr ⟨hseen, ?_⟩
          rw [List.find?_cons_of_pos]
          exact beq_self_eq_true _
    · have hnotacc : ¬ ∃ y ∈ acc, y.placeId = b.placeId := by
        rintro ⟨y, hy, he⟩
        exact hnot ⟨y, mem_dedupInsert_of_mem hy, he⟩
      have hne : (x.placeId == b.placeId) = false := by
        rw [beq_eq_false_iff_ne]
        intro he
        obtain ⟨y, hy, hey⟩ := exists_id_mem_dedupInsert acc x
        exact hnot ⟨y, hy, by rw [hey, he]⟩
      refine Or.inr ⟨hnotacc, ?_⟩
      rw [List.find?_cons_of_neg]
      · exact hfind
      · simp [hne]

theorem pairwise_dedupInsert {acc : List BusinessSuggestion} {b : BusinessSuggestion}
    (h : acc.Pairwise (fun a c => a.placeId ≠ c.placeId)) :
    (dedupInsert acc b).Pairwise (fun a c => a.placeId ≠ c.placeId) := by
  by_cases hseen : ∃ x ∈ acc, x.placeId = b.placeId
  · rw [dedupInsert_of_seen hseen]
    exact h
  · rw [dedupInsert_of_new hseen, List.pairwise_append]
    refine ⟨h, List.pairwise_singleton _ _, ?_⟩
    intro a ha c hc
    rw [List.mem_singleton] at hc
    subst hc
    intro he
    exact hseen ⟨a, ha, he⟩

theorem pairwise_dedupBatch :
    ∀ {l : List BusinessSuggestion} {acc : List BusinessSuggestion},
      acc.Pairwise (fun a c => a.placeId ≠ c.placeId) →
      (dedupBatch acc l).Pairwise (fun a c => a.placeId ≠ c.placeId) := by
  intro l
  induction l with
  | nil => intro acc h; exact h
  | cons x xs ih =>
    intro acc h
    show (dedupBatch (dedupInsert acc x) xs).Pairwise _
    exact ih (pairwise_dedupInsert h)

theorem exists_id_mem_dedupBatch :
    ∀ {l : List BusinessSuggestion} {acc : List BusinessSuggestion} {x : BusinessSuggestion},
      x ∈ l → ∃ b ∈ dedupBatch acc l, b.placeId = x.placeId := by
  intro l
  induction l with
  | nil => intro acc x h; exact absurd h (List.not_mem_nil x)
  | cons y ys ih =>
    intro acc x h
    rcases List.mem_cons.mp h with rfl | h'
    · obtain ⟨b, hb, he⟩ := exists_id_mem_dedupInsert acc x
      exact ⟨b, show b ∈ dedupBatch (dedupInsert acc x) ys from mem_dedupBatch_of_mem hb, he⟩
    · show ∃ b ∈ dedupBatch (dedupInsert acc y) ys, b.placeId = x.placeId
      exact ih h'

theorem dedupBatch_append (acc : List BusinessSuggestion)
    (l1 l2 : List BusinessSuggestion) :
    dedupBatch acc (l1 ++ l2) = dedupBatch (dedupBatch acc l1) l2 := by
  rw [dedupBatch, dedupBatch, dedupBatch, List.foldl_append]

/-- The accumulator always equals the first-seen de-duplication of the
concatenation of some initial segment of the variant responses (the part actually
scanned before the early exit). -/
theorem accumulateBusinesses_eq_take :
    ∀ (rs : List (List BusinessSuggestion)) (acc : List BusinessSuggestion),
      ∃ k, accumulateBusinesses acc rs = dedupBatch acc ((rs.take k).flatten) := by
  intro rs
  induction rs with
  | nil => intro acc; exact ⟨0, rfl⟩
  | cons r rest ih =>
    intro acc
    by_cases hlen : 15 ≤ (dedupBatch acc r).length
    · refine ⟨1, ?_⟩
      show (if 15 ≤ (dedupBatch acc r).length then dedupBatch acc r
        else accumulateBusinesses (dedupBatch acc r) rest) = _
      rw [if_pos hlen]
      simp [dedupBatch]
    · obtain ⟨k, hk⟩ := ih (dedupBatch acc r)
      refine ⟨k + 1, ?_⟩
      show (if 15 ≤ (dedupBatch acc r).length then dedupBatch acc r
        else accumulateBusinesses (dedupBatch acc r) rest) = _
      rw [if_neg hlen, hk, List.take_succ_cons, List.flatten_cons, dedupBatch_append]

/-- For every sequence of query-variant responses: the accumulator has
pairwise-distinct placeIds, and for the scanned initial segment of the responses each
accumulated record is exactly the first record carrying its placeId in scan
order (later duplicates are dropped even if they differ), while every scanned
record's placeId is represented. -/
theorem findCompetitors_dedup_first_seen_wins (responses : List (List BusinessSuggestion)) :
    (accumulateBusinesses [] responses).Pairwise (fun a b => a.placeId ≠ b.placeId) ∧
    ∃ k,
      (∀ b ∈ accumulateBusinesses [] responses,
        ((responses.take k).flatten).find? (fun x => x.placeId == b.placeId) = some b) ∧
      (∀ x ∈ (responses.take k).flatten,
        ∃ b ∈ accumulateBusinesses [] responses, b.placeId = x.placeId) := by
  obtain ⟨k, hk⟩ := accumulateBusinesses_eq_take responses []
  constructor
  · rw [hk]
    exact pairwise_dedupBatch List.Pairwise.nil
  · refine ⟨k, ?_, ?_⟩
    · intro b hb
      rw [hk] at hb
      rcases mem_dedupBatch hb with h | ⟨_, hfind⟩
      · exact absurd h (List.not_mem_nil b)
      · exact hfind
    · intro x hx
      rw [hk]
      exact exists_id_mem_dedupBatch hx

/-! ## C1: performance score range -/

theorem sortByStrength_ne_nil {lg : ℚ → ℚ} {l : List BusinessSuggestion} (h : l ≠ []) :
    sortByStrength lg l ≠ [] := by
  intro hnil
  apply h
  have hlen : l.length = 0 := by
    rw [← List.length_insertionSort (fun a b => strength lg b ≤ strength lg a) l]
    rw [sortByStrength] at hnil
    rw [hnil]
    rfl
  exact List.length_eq_zero.mp hlen

theorem clamp64_mem (x : ℚ) :
    0 ≤ max 0 (min 64 (jround x)) ∧ max 0 (min 64 (jround x)) ≤ 64 :=
  ⟨le_max_left 0 _, max_le (by norm_num) (min_le_left _ _)⟩

/-- Counterexample to C1 as stated: with a single competitor of rating 0
(strength 0 under every `lg`, here `lgSample`), the gap-from-leader division is
`0/0 = NaN` and the with-competitor branch returns `NaN` — no integer in
[0, 64] — although every record satisfies the data-model invariant. -/
theorem performanceScore_nan_on_zero_strength_leader :
    calculatePerformanceScore lgSample targetA [competitorZero] = none ∧
    (0:ℚ) ≤ targetA.rating ∧ targetA.rating ≤ 5 ∧ (0:ℚ) ≤ targetA.reviewCount ∧
    (0:ℚ) ≤ competitorZero.rating ∧ competitorZero.rating ≤ 5 ∧
    (0:ℚ) ≤ competitorZero.reviewCount := by
  refine ⟨?_, by norm_num [targetA], by norm_num [targetA], by norm_num [targetA],
    by norm_num [competitorZero], by norm_num [competitorZero], by norm_num [competitorZero]⟩
  norm_num [calculatePerformanceScore, sortByStrength, List.insertionSort, List.orderedInsert,
    strength, lgSample, jsDiv, targetA, competitorZero]

/-- Amended C1: under the data-model invariant (nonnegative target rating and
review count) the performance score is an integer in [0, 64] in the
empty-competitor branch always, and in the with-competitor branch provided the
top-ranked competitor's strength is nonzero; a zero top strength instead makes
the JS value `NaN` (see the counterexample). -/
theorem performanceScore_range_of_leader_strength_ne_zero (lg : ℚ → ℚ)
    (target : BusinessSuggestion) (competitors : List BusinessSuggestion)
    (h1 : 0 ≤ target.rating) (h2 : 0 ≤ target.reviewCount)
    (h3 : ∀ top, (sortByStrength lg competitors).head? = some top → strength lg top ≠ 0) :
    ∃ n : ℤ, calculatePerformanceScore lg target competitors = some n ∧ 0 ≤ n ∧ n ≤ 64 := by
  by_cases hempty : competitors.length = 0
  · refine ⟨min 64 (jround (target.rating / 5 * 100)), ?_, ?_, min_le_left _ _⟩
    · simp only [calculatePerformanceScore, if_pos hempty]
    · exact le_min (by norm_num) (jround_nonneg (by positivity))
  · have hne : sortByStrength lg competitors ≠ [] := by
      apply sortByStrength_ne_nil
      intro hl
      exact hempty (by rw [hl]; rfl)
    obtain ⟨top, rest, htop⟩ := List.exists_cons_of_ne_nil hne
    have hhead : (sortByStrength lg competitors).head? = some top := by rw [htop]; rfl
    have hstr : strength lg top ≠ 0 := h3 top hhead
    have hlenN : (List.take 3 (top :: rest)).length ≠ 0 := by
      rw [List.length_take, List.length_cons]
      omega
    have hlenQ : ((List.take 3 (top :: rest)).length : ℚ) ≠ 0 := Nat.cast_ne_zero.mpr hlenN
    simp only [calculatePerformanceScore, if_neg hempty, htop]
    simp only [jsDiv, if_neg hstr, hlenQ, if_neg, bind, Option.bind, ite_false, ite_true]
    by_cases hb2 : target.reviewCount
        < sumReviewCounts (List.take 3 (top :: rest)) / ((List.take 3 (top :: rest)).length : ℚ)
    · have hA0 : ¬ (sumReviewCounts (List.take 3 (top :: rest))
          / ((List.take 3 (top :: rest)).length : ℚ) = 0) := by
        intro h0
        rw [h0] at hb2
        exact absurd hb2 (not_lt.mpr h2)
      by_cases hb3 : target.rating < top.rating
      · have hT0 : ¬ (top.rating = 0) := by
          intro h0
          rw [h0] at hb3
          exact absurd hb3 (not_lt.mpr h1)
        simp only [if_pos hb2, if_neg hA0, if_pos hb3, if_neg hT0, Option.map_some',
          Option.bind]
        exact ⟨_, rfl, (clamp64_mem _).1, (clamp64_mem _).2⟩
      · simp only [if_pos hb2, if_neg hA0, if_neg hb3, Option.map_some', Option.bind]
        exact ⟨_, rfl, (clamp64_mem _).1, (clamp64_mem _).2⟩
    · by_cases hb3 : target.rating < top.rating
      · have hT0 : ¬ (top.rating = 0) := by
          intro h0
          rw [h0] at hb3
          exact absurd hb3 (not_lt.mpr h1)
        simp only [if_neg hb2, if_pos hb3, if_neg hT0, Option.map_some', Option.bind]
        exact ⟨_, rfl, (clamp64_mem _).1, (clamp64_mem _).2⟩
      · simp only [if_neg hb2, if_neg hb3]
        exact ⟨_, rfl, (clamp64_mem _).1, (clamp64_mem _).2⟩

/-- Witness for the amended C1 at a concrete input with a nonzero-strength
leader. -/
theorem performanceScore_range_witness :
    (0:ℚ) ≤ targetA.rating ∧ (0:ℚ) ≤ targetA.reviewCount ∧
    ∃ n : ℤ, calculatePerformanceScore lgSample targetA [competitorB] = some n ∧
      0 ≤ n ∧ n ≤ 64 :=
  ⟨by norm_num [targetA], by norm_num [targetA],
   performanceScore_range_of_leader_strength_ne_zero lgSample targetA [competitorB]
     (by norm_num [targetA]) (by norm_num [targetA])
     (by
       intro top h
       have hs : sortByStrength lgSample [competitorB] = [competitorB] := by
         norm_num [sortByStrength, List.insertionSort, List.orderedInsert]
       rw [hs] at h
       have heq : competitorB = top := by simpa using h
       rw [← heq]
       norm_num [strength, lgSample, competitorB])⟩

end WBScan
